import Mathlib

/-!
# Verification of the Shipwrecked program-economy logic

This file gives a shallow embedding, in Lean 4, of the hour-approval
aggregator and the shell-pricing logic of the Shipwrecked repository:

* `src/app/api/review/route.ts` (`GET`): per-user approved-hour aggregation
  over the top-4 projects ranked by effective hours, with per-project
  contribution capped at 15 and the total capped at 60, and per-user
  try/catch error isolation in the batch loop;
* `src/app/api/projects/route.ts` (`GET`, `PUT`): link-level effective-hour
  resolution (`hoursOverride` falling back to `rawHours` falling back to 0),
  and the role-based filtering of update payloads (top-level `hoursOverride`
  stripped for everyone; per-link overrides applied only for Admin/Reviewer);
* the admin shop page (`ShopItemsPage`, `handleSubmit` and the config
  auto-calculation effect): shell prices derived from a cost basis via the
  golden-ratio formula `round(x * φ * 10)`.

JavaScript numbers are modelled as rationals (`ℚ`); `null`/`undefined`/NaN
inputs are modelled as `Option ℚ`.  `Math.round` is `⌊x + 1/2⌋`, which agrees
with every round-half convention on the values occurring here because
`x * φ` is irrational for rational `x ≠ 0`.

The golden-ratio rounding `round(a * φ * 10)` is made executable through an
integer square-root computation (`isqrt`), and the bridge theorem
`roundMulPhi_eq` proves the executable form equal to
`round ((a : ℝ) * goldenRatio)` over the real numbers.
-/

/-! ## Executable integer square root

`Real.sqrt` is noncomputable, so the price formulas are computed through the
integer square root below (binary recursion, so that the kernel can evaluate
it on concrete inputs), and related to `Real.sqrt` by proof. -/

/-- Integer square root by halving: `isqrtFuel fuel n` is `⌊√n⌋` provided
`n < 4 ^ fuel`. -/
def isqrtFuel : ℕ → ℕ → ℕ
  | 0, _ => 0
  | fuel + 1, n =>
    if n < 2 then n
    else
      if (2 * isqrtFuel fuel (n / 4) + 1) * (2 * isqrtFuel fuel (n / 4) + 1) ≤ n then
        2 * isqrtFuel fuel (n / 4) + 1
      else 2 * isqrtFuel fuel (n / 4)

/-- Integer square root: the largest `k` with `k * k ≤ n`. -/
def isqrt (n : ℕ) : ℕ := isqrtFuel n n

/-- `⌊B * √5⌋` for an integer `B`, computed with `isqrt`. -/
def intSqrt5Floor (B : ℤ) : ℤ :=
  if 0 ≤ B then (isqrt (5 * B * B).toNat : ℤ)
  else -(isqrt (5 * B * B).toNat : ℤ) - 1

/-- `round (a * φ)` for a rational `a`, where `φ = (1 + √5)/2`, computed
executably: `round (a * φ) = ⌊(a.num + a.den + a.num * √5) / (2 * a.den)⌋`. -/
def roundMulPhi (a : ℚ) : ℤ :=
  (a.num + (a.den : ℤ) + intSqrt5Floor a.num) / (2 * (a.den : ℤ))

theorem isqrtFuel_spec : ∀ (fuel n : ℕ), n < 4 ^ fuel →
    isqrtFuel fuel n * isqrtFuel fuel n ≤ n ∧
      n < (isqrtFuel fuel n + 1) * (isqrtFuel fuel n + 1)
  | 0, n, h => by
    simp only [isqrtFuel]
    simp only [pow_zero] at h
    omega
  | fuel + 1, n, h => by
    simp only [isqrtFuel]
    by_cases h2 : n < 2
    · simp only [if_pos h2]
      interval_cases n
      · exact ⟨by omega, by omega⟩
      · exact ⟨by omega, by omega⟩
    · simp only [if_neg h2]
      have hdiv : n / 4 < 4 ^ fuel := by
        rw [pow_succ] at h
        omega
      obtain ⟨ih1, ih2⟩ := isqrtFuel_spec fuel (n / 4) hdiv
      have h4a : 4 * (n / 4) ≤ n := by omega
      have h4b : n < 4 * (n / 4) + 4 := by omega
      have hlow : (2 * isqrtFuel fuel (n / 4)) * (2 * isqrtFuel fuel (n / 4)) ≤ n := by
        nlinarith [ih1]
      have hup : n < (2 * isqrtFuel fuel (n / 4) + 2) * (2 * isqrtFuel fuel (n / 4) + 2) := by
        nlinarith [ih2]
      split
      · rename_i hc
        refine ⟨hc, ?_⟩
        have he : 2 * isqrtFuel fuel (n / 4) + 1 + 1 = 2 * isqrtFuel fuel (n / 4) + 2 := by
          omega
        rw [he]
        exact hup
      · rename_i hc
        exact ⟨hlow, by omega⟩

theorem isqrt_sq_le (n : ℕ) : isqrt n * isqrt n ≤ n :=
  (isqrtFuel_spec n n (Nat.lt_pow_self (by norm_num) n)).1

theorem lt_isqrt_succ_sq (n : ℕ) : n < (isqrt n + 1) * (isqrt n + 1) :=
  (isqrtFuel_spec n n (Nat.lt_pow_self (by norm_num) n)).2

theorem int_floor_sqrt_nat (N : ℕ) : ⌊Real.sqrt N⌋ = (isqrt N : ℤ) := by
  refine Int.floor_eq_iff.mpr ⟨?_, ?_⟩
  · push_cast
    rw [Real.le_sqrt (Nat.cast_nonneg _) (Nat.cast_nonneg _)]
    have h2 : ((isqrt N * isqrt N : ℕ) : ℝ) ≤ ((N : ℕ) : ℝ) :=
      Nat.cast_le.mpr (isqrt_sq_le N)
    push_cast at h2
    nlinarith [h2]
  · push_cast
    rw [Real.sqrt_lt' (by positivity)]
    have h2 : ((N : ℕ) : ℝ) < (((isqrt N + 1) * (isqrt N + 1) : ℕ) : ℝ) :=
      Nat.cast_lt.mpr (lt_isqrt_succ_sq N)
    push_cast at h2
    nlinarith [h2]

theorem sqrt5_irrational : Irrational (Real.sqrt 5) := by
  have h5 : Nat.Prime 5 := by norm_num
  simpa using h5.irrational_sqrt

theorem toNat_5BB (B : ℤ) : (((5 * B * B).toNat : ℕ) : ℝ) = 5 * (B : ℝ) * B := by
  have h : (0 : ℤ) ≤ 5 * B * B := by nlinarith [mul_self_nonneg B]
  have h2 : ((5 * B * B).toNat : ℤ) = 5 * B * B := Int.toNat_of_nonneg h
  exact_mod_cast congrArg (fun z : ℤ => (z : ℝ)) h2

theorem mul_sqrt5_eq (B : ℤ) (hB : 0 ≤ B) :
    (B : ℝ) * Real.sqrt 5 = Real.sqrt ((5 * B * B).toNat : ℕ) := by
  have hBR : (0 : ℝ) ≤ (B : ℝ) := by exact_mod_cast hB
  have h1 : (B : ℝ) = Real.sqrt ((B : ℝ) ^ 2) := (Real.sqrt_sq hBR).symm
  rw [h1, ← Real.sqrt_mul (sq_nonneg _)]
  congr 1
  rw [toNat_5BB]
  ring

theorem intSqrt5Floor_eq (B : ℤ) : intSqrt5Floor B = ⌊(B : ℝ) * Real.sqrt 5⌋ := by
  unfold intSqrt5Floor
  split
  · rename_i hB
    rw [mul_sqrt5_eq B hB, int_floor_sqrt_nat]
  · rename_i hB
    push_neg at hB
    have hC : (0 : ℤ) ≤ -B := by omega
    have hN : 5 * -B * -B = 5 * B * B := by ring
    have hy : ((-B : ℤ) : ℝ) * Real.sqrt 5 = Real.sqrt ((5 * B * B).toNat : ℕ) := by
      have h := mul_sqrt5_eq (-B) hC
      rwa [hN] at h
    have hfl : ⌊((-B : ℤ) : ℝ) * Real.sqrt 5⌋ = (isqrt (5 * B * B).toNat : ℤ) := by
      rw [hy, int_floor_sqrt_nat]
    have hirr : Irrational (((-B : ℤ) : ℝ) * Real.sqrt 5) :=
      sqrt5_irrational.int_mul (by omega)
    have hBx : (B : ℝ) * Real.sqrt 5 = -(((-B : ℤ) : ℝ) * Real.sqrt 5) := by
      push_cast
      ring
    rw [hBx, Int.floor_neg]
    have hc : ⌈((-B : ℤ) : ℝ) * Real.sqrt 5⌉ = ⌊((-B : ℤ) : ℝ) * Real.sqrt 5⌋ + 1 := by
      refine Int.ceil_eq_iff.mpr ⟨?_, ?_⟩
      · push_cast
        have h1 : (⌊((-B : ℤ) : ℝ) * Real.sqrt 5⌋ : ℝ) ≤ ((-B : ℤ) : ℝ) * Real.sqrt 5 :=
          Int.floor_le _
        have h2 : ((-B : ℤ) : ℝ) * Real.sqrt 5 ≠ (⌊((-B : ℤ) : ℝ) * Real.sqrt 5⌋ : ℝ) :=
          hirr.ne_int _
        have h3 : (⌊((-B : ℤ) : ℝ) * Real.sqrt 5⌋ : ℝ) < ((-B : ℤ) : ℝ) * Real.sqrt 5 :=
          lt_of_le_of_ne h1 (fun hcon => h2 hcon.symm)
        push_cast at h3
        linarith
      · push_cast
        exact (Int.lt_floor_add_one _).le
    rw [hc, hfl]
    ring

theorem int_floor_div_pos (x : ℝ) (D : ℤ) (hD : 0 < D) : ⌊x / (D : ℝ)⌋ = ⌊x⌋ / D := by
  have hDR : (0 : ℝ) < (D : ℝ) := by exact_mod_cast hD
  refine Int.floor_eq_iff.mpr ⟨?_, ?_⟩
  · rw [le_div_iff₀ hDR]
    have h1 : ⌊x⌋ / D * D ≤ ⌊x⌋ := Int.ediv_mul_le ⌊x⌋ hD.ne'
    calc ((⌊x⌋ / D : ℤ) : ℝ) * (D : ℝ) = ((⌊x⌋ / D * D : ℤ) : ℝ) := by push_cast; ring
      _ ≤ ((⌊x⌋ : ℤ) : ℝ) := by exact_mod_cast h1
      _ ≤ x := Int.floor_le x
  · rw [div_lt_iff₀ hDR]
    have h1 : ⌊x⌋ < (⌊x⌋ / D + 1) * D := Int.lt_ediv_add_one_mul_self ⌊x⌋ hD
    calc x < (⌊x⌋ : ℝ) + 1 := Int.lt_floor_add_one x
      _ ≤ (((⌊x⌋ / D + 1) * D : ℤ) : ℝ) := by exact_mod_cast h1
      _ = ((⌊x⌋ / D : ℤ) + 1) * (D : ℝ) := by push_cast; ring

theorem roundMulPhi_eq (a : ℚ) : roundMulPhi a = round ((a : ℝ) * goldenRatio) := by
  have hq : (0 : ℤ) < 2 * (a.den : ℤ) := by
    have := a.pos
    positivity
  have hden : ((a.den : ℕ) : ℝ) ≠ 0 := Nat.cast_ne_zero.mpr a.den_nz
  have hx : (a : ℝ) * goldenRatio + 1 / 2 =
      (((a.num + (a.den : ℤ) : ℤ) : ℝ) + ((a.num : ℤ) : ℝ) * Real.sqrt 5) /
        ((2 * (a.den : ℤ) : ℤ) : ℝ) := by
    rw [Rat.cast_def a]
    show (a.num : ℝ) / (a.den : ℝ) * ((1 + Real.sqrt 5) / 2) + 1 / 2 = _
    push_cast
    field_simp
    ring
  rw [round_eq, hx, int_floor_div_pos _ _ hq, Int.floor_int_add, ← intSqrt5Floor_eq]
  rfl

/-! ## Data model: tracked-time links and projects -/

/-- A Hackatime project link as stored on a project.  `rawHours` is `none`
when the stored value is missing or non-numeric; `hoursOverride` is `none`
when the override is `null`/`undefined`. -/
structure HackatimeLink where
  rawHours : Option ℚ
  hoursOverride : Option ℚ
deriving DecidableEq

/-- Effective hours of one link, from `src/app/api/projects/route.ts` (`GET`):
`(link.hoursOverride !== undefined && link.hoursOverride !== null)
  ? link.hoursOverride
  : (typeof link.rawHours === 'number' ? link.rawHours : 0)`. -/
def effectiveHours (link : HackatimeLink) : ℚ :=
  match link.hoursOverride with
  | some h => h
  | none => link.rawHours.getD 0

/-- A project as consumed by the review aggregation: its `shipped`/`viral`
flags, the externally supplied approved hours, and its Hackatime links. -/
structure Proj where
  shipped : Bool
  viral : Bool
  approved : ℚ
  links : List HackatimeLink
deriving DecidableEq

/-- Modelled from the spec: `getProjectHackatimeHours` comes from
`lib/project-client` which is not under `src/`; §4.2 of the spec defines the
project hour resolver as the sum of the links' effective hours. -/
def getProjectHackatimeHours (p : Proj) : ℚ :=
  (p.links.map effectiveHours).sum

/-! ## The review aggregator (`src/app/api/review/route.ts`, `GET`) -/

/-- Ordering used to rank projects: `p` may precede `q` exactly when `q`'s
hours do not exceed `p`'s.  This is the comparator
`(a, b) => b.hours - a.hours` of the stable JavaScript sort. -/
def hoursLE (p q : Proj) : Prop :=
  getProjectHackatimeHours q ≤ getProjectHackatimeHours p

instance : DecidableRel hoursLE := fun p q =>
  inferInstanceAs (Decidable (getProjectHackatimeHours q ≤ getProjectHackatimeHours p))

instance : IsTotal Proj hoursLE :=
  ⟨fun p q => le_total (getProjectHackatimeHours q) (getProjectHackatimeHours p)⟩

instance : IsTrans Proj hoursLE :=
  ⟨fun _ _ _ h1 h2 => le_trans h2 h1⟩

/-- The stable descending sort `.sort((a, b) => b.hours - a.hours)`:
a stable sort agreeing with a total preorder is unique, so it is embedded as
insertion sort with respect to `hoursLE`. -/
def sortByHoursDesc (ps : List Proj) : List Proj :=
  List.insertionSort hoursLE ps

/-- `.slice(0, 4)`: the top 4 projects by effective hours. -/
def topFour (ps : List Proj) : List Proj :=
  (sortByHoursDesc ps).take 4

/-- Per-project contribution, the three-way branch of the review `GET`:
viral with positive approved hours, else shipped with positive approved
hours, else unshipped-and-nonviral; each firing branch contributes
`min(approved, 15)` and everything else contributes 0. -/
def contribution (p : Proj) : ℚ :=
  if p.viral = true ∧ 0 < p.approved then min p.approved 15
  else if p.shipped = true ∧ 0 < p.approved then min p.approved 15
  else if p.shipped = false ∧ p.viral = false then
    if 0 < p.approved then min p.approved 15 else 0
  else 0

/-- The running `userApprovedHours` accumulator of the review `GET`. -/
def userApprovedHours (ps : List Proj) : ℚ :=
  ps.foldl (fun acc p => acc + contribution p) 0

/-- `AggregateApprovedHours`: contributions of the top-4 projects, capped at
60 (`Math.min(userApprovedHours, 60)`). -/
def aggregate (ps : List Proj) : ℚ :=
  min (userApprovedHours (topFour ps)) 60

/-- One user's entry in the batch: the aggregate when the per-user lookup
succeeded, `0` when it threw (the `catch` branch sets
`userProjectsMap[userId] = 0`). -/
def aggOrZero : Except String (List Proj) → ℚ
  | Except.ok ps => aggregate ps
  | Except.error _ => 0

/-- The per-user batch loop of the review `GET`: every user id is mapped to
its own result, computed only from that user's lookup. -/
def processBatch (f : String → Except String (List Proj)) (userIds : List String) :
    List (String × ℚ) :=
  userIds.map (fun u => (u, aggOrZero (f u)))

/-! ## Shell pricing (admin shop page) -/

/-- The two cost types of a shop item. -/
inductive CostType where
  | fixed
  | config
deriving DecidableEq

/-- The recognized keys of a shop item's `config` JSON, parsed as numbers;
`none` models an absent (or non-numeric) key. -/
structure ShopConfig where
  dollars_per_hour : Option ℚ
  hours_equal_to_one_percent_progress : Option ℚ
deriving DecidableEq

/-- JavaScript truthiness of an optional numeric config value: present and
nonzero. -/
def truthyNum : Option ℚ → Bool
  | none => false
  | some x => decide (x ≠ 0)

/-- Modelled from the spec: `calculateShellPrice` lives in `lib/shop-utils`,
which is not under `src/`; §4.4 of the spec and the formula shown by the admin
page give `round((usdCost / dollarsPerHour) * φ * 10)`. -/
def calculateShellPrice (usd dollarsPerHour : ℚ) : ℤ :=
  roundMulPhi (usd / dollarsPerHour * 10)

/-- The price computed by `handleSubmit`: starts from the manually entered
form price and replaces it by `calculateShellPrice(usdCost, globalRate)` only
when the cost type is not `config` and both `usdCost` and the global rate are
positive.  The item's `config` is not consulted.  `usd = none` models an
unparseable (`NaN`) cost, for which `usdCost > 0` is false. -/
def handleSubmitPrice (costType : CostType) (cfg : ShopConfig) (usd : Option ℚ)
    (globalRate : ℚ) (formPrice : ℤ) : ℤ :=
  match usd with
  | some u =>
    if costType ≠ CostType.config ∧ 0 < u ∧ 0 < globalRate then
      calculateShellPrice u globalRate
    else formPrice
  | none => formPrice

/-- The config-item auto-calculation effect of `ShopItemsPage`: when
`config.dollars_per_hour` is truthy and `usdCost` parses, the price is
`round((usdCost / dollars_per_hour) * φ * 10)`; otherwise, when
`config.hours_equal_to_one_percent_progress` is truthy, the price is
`round(h * φ * 10)`; otherwise the price is left unchanged. -/
def configAutoPrice (cfg : ShopConfig) (usd : Option ℚ) (price : ℤ) : ℤ :=
  if truthyNum cfg.dollars_per_hour ∧ usd.isSome then
    roundMulPhi (usd.getD 0 / cfg.dollars_per_hour.getD 0 * 10)
  else if truthyNum cfg.hours_equal_to_one_percent_progress then
    roundMulPhi (cfg.hours_equal_to_one_percent_progress.getD 0 * 10)
  else price

/-! ## Randomized price sampling

Modelled from the spec: the `RandomizedPriceSampler` (§4.5) has no
implementation under `src/`; the admin page only stores
`price_random_min_percent` / `price_random_max_percent`.  Per §4.5 the
displayed price is `basePrice * multiplier` with the multiplier a seeded
pseudo-random pure function of `(userId, itemId, timeBucket)`, the bucket
advancing once per clock hour, and the multiplier drawn from
`[minPercent/100, maxPercent/100]`. -/

/-- The one-hour-wide time bucket of an instant given in milliseconds. -/
def timeBucket (nowMs : ℕ) : ℕ := nowMs / 3600000

/-- A deterministic hash of `(userId, itemId, bucket)` scaled into `[0, 1)`. -/
def sampleFrac (userId itemId bucket : ℕ) : ℚ :=
  (((userId * 2654435761 + itemId * 40503 + bucket * 69069) % 1000 : ℕ) : ℚ) / 1000

/-- The per-user, per-bucket multiplier, interpolated inside the configured
percent band. -/
def sampleMultiplier (minPercent maxPercent : ℚ) (userId itemId bucket : ℕ) : ℚ :=
  minPercent / 100 + (maxPercent / 100 - minPercent / 100) * sampleFrac userId itemId bucket

/-- `SamplePrice`: the displayed price of an item for a user at an instant.
Items with randomized pricing disabled always display the base price. -/
def samplePrice (basePrice : ℚ) (useRandomizedPricing : Bool) (minPercent maxPercent : ℚ)
    (userId itemId nowMs : ℕ) : ℚ :=
  if useRandomizedPricing then
    basePrice * sampleMultiplier minPercent maxPercent userId itemId (timeBucket nowMs)
  else basePrice

/-! ## Project update payload filtering (`src/app/api/projects/route.ts`, `PUT`) -/

/-- The caller's effective role: `admin` when `role === 'Admin' || isAdmin`,
`reviewer` when `role === 'Reviewer'`, `plain` otherwise. -/
inductive Role where
  | admin
  | reviewer
  | plain
deriving DecidableEq

/-- Fields that regular users can update. -/
def userUpdateableFields : List String :=
  ["name", "description", "codeUrl", "playableUrl", "screenshot", "chat_enabled"]

/-- Fields that admins and reviewers can update. -/
def reviewerUpdateableFields : List String :=
  "in_review" :: userUpdateableFields

/-- Fields that should never be updated via the API. -/
def nonUpdateableFields : List String :=
  ["hackatimeName"]

/-- The explicit security check: `hoursOverride` is deleted from the update
payload before any role-based filtering, for every caller. -/
def stripHoursOverride (fields : List (String × Option ℚ)) : List (String × Option ℚ) :=
  fields.filter (fun kv => decide (kv.1 ≠ "hoursOverride"))

/-- The role-based filtering of `updateFields` in the `PUT` handler.  A field
survives only if its value is defined (`val !== undefined`) and its key is
allowed for the caller's role; `hoursOverride` is stripped first for every
role. -/
def filterUpdateFields (role : Role) (fields : List (String × Option ℚ)) :
    List (String × Option ℚ) :=
  match role with
  | Role.admin =>
    (stripHoursOverride fields).filter
      (fun kv => decide (kv.1 ∉ nonUpdateableFields) && kv.2.isSome)
  | Role.reviewer =>
    (stripHoursOverride fields).filter
      (fun kv =>
        decide (kv.1 ∈ reviewerUpdateableFields) &&
          (decide (kv.1 ∉ nonUpdateableFields) && kv.2.isSome))
  | Role.plain =>
    (stripHoursOverride fields).filter
      (fun kv =>
        decide (kv.1 ∈ userUpdateableFields) &&
          (decide (kv.1 ∉ nonUpdateableFields) && kv.2.isSome))

/-- A stored Hackatime link row, keyed by its id. -/
structure StoredLink where
  id : String
  rawHours : ℚ
  hoursOverride : Option ℚ
deriving DecidableEq

/-- Applying one entry of `hackatimeLinkOverrides` to a stored link: a numeric
value sets the override, a cleared value (`null`/`undefined`/`''`) sets it to
`null`, and a link whose id has no entry is untouched. -/
def applyLinkOverride (overrides : List (String × Option ℚ)) (link : StoredLink) :
    StoredLink :=
  match overrides.lookup link.id with
  | some v => { link with hoursOverride := v }
  | none => link

/-- The per-link override pass of the `PUT` handler: it runs only when the
caller is an admin or a reviewer and the overrides map is non-empty. -/
def putLinkUpdates (role : Role) (overrides : List (String × Option ℚ))
    (links : List StoredLink) : List StoredLink :=
  if (role = Role.admin ∨ role = Role.reviewer) ∧ overrides ≠ [] then
    links.map (applyLinkOverride overrides)
  else links

/-- A shipped, non-viral project with a single raw-hours link (used to state
concrete instances of the spec's worked example). -/
def mkShippedProj (hours approved : ℚ) : Proj :=
  ⟨true, false, approved, [⟨some hours, none⟩]⟩

/-- The spec's worked example: effective hours `[50, 40, 30, 20]`, approved
hours 20 each, all shipped. -/
def exampleTopFourProjects : List Proj :=
  [mkShippedProj 50 20, mkShippedProj 40 20, mkShippedProj 30 20, mkShippedProj 20 20]

/-- The fifth-ranked project of the spec's second worked example: viral,
100 approved hours, but only 10 effective hours. -/
def exampleViralFifth : Proj :=
  ⟨false, true, 100, [⟨some 10, none⟩]⟩

/-! ## Helper lemmas -/

theorem foldl_add_contribution (ps : List Proj) (a : ℚ) :
    ps.foldl (fun acc p => acc + contribution p) a = a + (ps.map contribution).sum := by
  induction ps generalizing a with
  | nil => simp
  | cons p ps ih =>
    simp only [List.foldl_cons, List.map_cons, List.sum_cons, ih]
    ring

theorem userApprovedHours_eq (ps : List Proj) :
    userApprovedHours ps = (ps.map contribution).sum := by
  simp [userApprovedHours, foldl_add_contribution]

theorem contribution_nonneg (p : Proj) : 0 ≤ contribution p := by
  unfold contribution
  split_ifs with h1 h2 h3 h4
  · exact le_min h1.2.le (by norm_num)
  · exact le_min h2.2.le (by norm_num)
  · exact le_min h4.le (by norm_num)
  · exact le_refl 0
  · exact le_refl 0

theorem aggregate_nonneg (ps : List Proj) : 0 ≤ aggregate ps := by
  refine le_min ?_ (by norm_num)
  rw [userApprovedHours_eq]
  refine List.sum_nonneg ?_
  intro x hx
  obtain ⟨p, _, rfl⟩ := List.mem_map.mp hx
  exact contribution_nonneg p

theorem aggregate_le_60 (ps : List Proj) : aggregate ps ≤ 60 :=
  min_le_right _ _

/-! ## C1: the three-way contribution branch and the 60-hour cap -/

/-- C1: for every project selected into the top 4, the contribution follows
the three-way branch exactly — viral with positive approved hours gives
`min(approved, 15)`, else shipped with positive approved hours gives
`min(approved, 15)`, else an unshipped non-viral project gives
`min(approved, 15)` when its approved hours are positive and 0 otherwise,
and a project with non-positive approved hours contributes 0 — and the
aggregate is `min(sum of top-4 contributions, 60)`, hence always in
`[0, 60]`. -/
theorem review_aggregate_branch_and_cap (s v : Bool) (a : ℚ) (ls : List HackatimeLink)
    (ps : List Proj) :
    (v = true → 0 < a → contribution ⟨s, v, a, ls⟩ = min a 15) ∧
    (v = false → s = true → 0 < a → contribution ⟨s, v, a, ls⟩ = min a 15) ∧
    (s = false → v = false →
      contribution ⟨s, v, a, ls⟩ = if 0 < a then min a 15 else 0) ∧
    (¬ 0 < a → contribution ⟨s, v, a, ls⟩ = 0) ∧
    aggregate ps = min ((topFour ps).map contribution).sum 60 ∧
    0 ≤ aggregate ps ∧ aggregate ps ≤ 60 := by
  refine ⟨?_, ?_, ?_, ?_, ?_, aggregate_nonneg ps, aggregate_le_60 ps⟩
  · intro hv ha
    simp [contribution, hv, ha]
  · intro hv hs ha
    simp [contribution, hv, hs, ha]
  · intro hs hv
    simp [contribution, hs, hv]
  · intro ha
    simp [contribution, ha]
  · rw [aggregate, userApprovedHours_eq]

/-- Witness for C1 at concrete inputs. -/
theorem review_aggregate_branch_and_cap_witness :
    contribution ⟨true, true, 20, []⟩ = min 20 15 ∧
    0 ≤ aggregate exampleTopFourProjects ∧ aggregate exampleTopFourProjects ≤ 60 :=
  ⟨(review_aggregate_branch_and_cap true true 20 [] exampleTopFourProjects).1 rfl
      (by norm_num),
   (review_aggregate_branch_and_cap true true 20 [] exampleTopFourProjects).2.2.2.2.2.1,
   (review_aggregate_branch_and_cap true true 20 [] exampleTopFourProjects).2.2.2.2.2.2⟩

/-! ## C7: effective-hour resolution of a link -/

/-- C7: `ResolveEffectiveHours` returns `hoursOverride` whenever it is
present — including the value zero — otherwise `rawHours` when it is a
number, and otherwise 0; it is a total function, so it never throws. -/
theorem effective_hours_resolution (r : Option ℚ) (h x : ℚ) :
    effectiveHours ⟨r, some h⟩ = h ∧
    effectiveHours ⟨r, some 0⟩ = 0 ∧
    effectiveHours ⟨some x, none⟩ = x ∧
    effectiveHours ⟨none, none⟩ = 0 :=
  ⟨rfl, rfl, rfl, rfl⟩

/-! ## C2: top-4 ranking -/

theorem orderedInsert_filter_eq (p : Proj) (h : ℚ) (l : List Proj) :
    (List.orderedInsert hoursLE p l).filter
        (fun q => decide (getProjectHackatimeHours q = h)) =
      if getProjectHackatimeHours p = h then
        p :: l.filter (fun q => decide (getProjectHackatimeHours q = h))
      else l.filter (fun q => decide (getProjectHackatimeHours q = h)) := by
  induction l with
  | nil =>
    by_cases hph : getProjectHackatimeHours p = h
    · simp [List.orderedInsert, hph]
    · simp [List.orderedInsert, hph]
  | cons b l ih =>
    simp only [List.orderedInsert]
    by_cases hpb : hoursLE p b
    · rw [if_pos hpb]
      by_cases hph : getProjectHackatimeHours p = h
      · simp [List.filter_cons, hph]
      · simp [List.filter_cons, hph]
    · rw [if_neg hpb]
      have hbp : getProjectHackatimeHours p < getProjectHackatimeHours b :=
        not_le.mp hpb
      by_cases hph : getProjectHackatimeHours p = h
      · have hbh : ¬ getProjectHackatimeHours b = h := by
          rw [← hph]
          exact ne_of_gt hbp
        simp [List.filter_cons, hbh, ih, hph]
      · by_cases hbh : getProjectHackatimeHours b = h
        · simp [List.filter_cons, hbh, ih, hph]
        · simp [List.filter_cons, hbh, ih, hph]

theorem sortByHoursDesc_filter_eq (ps : List Proj) (h : ℚ) :
    (sortByHoursDesc ps).filter (fun q => decide (getProjectHackatimeHours q = h)) =
      ps.filter (fun q => decide (getProjectHackatimeHours q = h)) := by
  induction ps with
  | nil => rfl
  | cons p ps ih =>
    show (List.orderedInsert hoursLE p (List.insertionSort hoursLE ps)).filter _ = _
    rw [orderedInsert_filter_eq]
    by_cases hph : getProjectHackatimeHours p = h
    · rw [if_pos hph]
      rw [show (List.insertionSort hoursLE ps).filter
            (fun q => decide (getProjectHackatimeHours q = h)) =
          ps.filter (fun q => decide (getProjectHackatimeHours q = h)) from ih]
      simp [List.filter_cons, hph]
    · rw [if_neg hph]
      rw [show (List.insertionSort hoursLE ps).filter
            (fun q => decide (getProjectHackatimeHours q = h)) =
          ps.filter (fun q => decide (getProjectHackatimeHours q = h)) from ih]
      simp [List.filter_cons, hph]

theorem orderedInsert_append_last (p q : Proj) (l : List Proj) (hpq : hoursLE p q) :
    List.orderedInsert hoursLE p (l ++ [q]) = List.orderedInsert hoursLE p l ++ [q] := by
  induction l with
  | nil => simp [List.orderedInsert, hpq]
  | cons b l ih =>
    simp only [List.cons_append, List.orderedInsert, List.append_eq]
    by_cases hpb : hoursLE p b
    · rw [if_pos hpb, if_pos hpb]
      rfl
    · rw [if_neg hpb, if_neg hpb, ih]
      rfl

theorem sortByHoursDesc_append_last (ps : List Proj) (q : Proj)
    (hq : ∀ p ∈ ps, hoursLE p q) :
    sortByHoursDesc (ps ++ [q]) = sortByHoursDesc ps ++ [q] := by
  induction ps with
  | nil => rfl
  | cons p ps ih =>
    have h1 : hoursLE p q := hq p (List.mem_cons_self p ps)
    show List.orderedInsert hoursLE p (List.insertionSort hoursLE (ps ++ [q])) = _
    rw [show List.insertionSort hoursLE (ps ++ [q]) = sortByHoursDesc (ps ++ [q]) from rfl,
      ih (fun r hr => hq r (List.mem_cons_of_mem p hr))]
    exact orderedInsert_append_last p q _ h1

theorem topFour_append_ranked_out (ps : List Proj) (q : Proj) (hlen : 4 ≤ ps.length)
    (hq : ∀ p ∈ ps, hoursLE p q) : topFour (ps ++ [q]) = topFour ps := by
  unfold topFour
  rw [sortByHoursDesc_append_last ps q hq]
  have hl : 4 ≤ (sortByHoursDesc ps).length := by
    rw [sortByHoursDesc, List.length_insertionSort]
    exact hlen
  exact List.take_append_of_le_length hl

/-- C2: the aggregator ranks a user's projects by effective hours descending
with ties broken only by stable input order (the sorted list is sorted,
a permutation of the input, and the sublist at each hour value is
preserved), selects exactly the top 4 (everything when there are at most 4),
and a project ranked outside the top 4 contributes nothing — in particular,
on the spec's worked example the fifth-ranked viral project with 100
approved hours leaves the aggregate at 60. -/
theorem review_topfour_ranking (ps : List Proj) (q : Proj) (h : ℚ) :
    List.Sorted hoursLE (sortByHoursDesc ps) ∧
    (sortByHoursDesc ps).Perm ps ∧
    (sortByHoursDesc ps).filter (fun r => decide (getProjectHackatimeHours r = h)) =
      ps.filter (fun r => decide (getProjectHackatimeHours r = h)) ∧
    (ps.length ≤ 4 → topFour ps = sortByHoursDesc ps) ∧
    (4 ≤ ps.length → (∀ p ∈ ps, hoursLE p q) → aggregate (ps ++ [q]) = aggregate ps) ∧
    aggregate exampleTopFourProjects = 60 ∧
    aggregate (exampleTopFourProjects ++ [exampleViralFifth]) = 60 := by
  refine ⟨List.sorted_insertionSort hoursLE ps, List.perm_insertionSort hoursLE ps,
    sortByHoursDesc_filter_eq ps h, ?_, ?_, ?_, ?_⟩
  · intro hlen
    unfold topFour
    refine List.take_of_length_le ?_
    rw [sortByHoursDesc, List.length_insertionSort]
    exact hlen
  · intro hlen hq
    unfold aggregate
    rw [topFour_append_ranked_out ps q hlen hq]
  · norm_num [aggregate, topFour, sortByHoursDesc, List.insertionSort, List.orderedInsert,
      hoursLE, getProjectHackatimeHours, effectiveHours, userApprovedHours, contribution,
      exampleTopFourProjects, mkShippedProj, List.take]
  · norm_num [aggregate, topFour, sortByHoursDesc, List.insertionSort, List.orderedInsert,
      hoursLE, getProjectHackatimeHours, effectiveHours, userApprovedHours, contribution,
      exampleTopFourProjects, exampleViralFifth, mkShippedProj, List.take]

/-- Witness for C2 at concrete inputs. -/
theorem review_topfour_ranking_witness :
    topFour [mkShippedProj 50 20] = sortByHoursDesc [mkShippedProj 50 20] ∧
    aggregate (exampleTopFourProjects ++ [exampleViralFifth]) =
      aggregate exampleTopFourProjects := by
  constructor
  · exact (review_topfour_ranking [mkShippedProj 50 20] exampleViralFifth 0).2.2.2.1
      (by norm_num [mkShippedProj])
  · exact (review_topfour_ranking exampleTopFourProjects exampleViralFifth 0).2.2.2.2.1
      (by norm_num [exampleTopFourProjects])
      (by
        intro p hp
        fin_cases hp <;>
          norm_num [hoursLE, getProjectHackatimeHours, effectiveHours, mkShippedProj,
            exampleTopFourProjects, exampleViralFifth])

/-! ## C3: per-user failure isolation in the review batch -/

theorem lookup_processBatch (f : String → Except String (List Proj)) (us : List String)
    (u : String) (hu : u ∈ us) :
    (processBatch f us).lookup u = some (aggOrZero (f u)) := by
  induction us with
  | nil => cases hu
  | cons w us ih =>
    by_cases hw : u = w
    · subst hw
      simp [processBatch, List.lookup]
    · have hmem : u ∈ us := by
        rcases List.mem_cons.mp hu with h1 | h1
        · exact absurd h1 hw
        · exact h1
      have hbeq : (u == w) = false := beq_false_of_ne hw
      simpa [processBatch, List.lookup, hbeq] using ih hmem

theorem lookup_processBatch_congr (f g : String → Except String (List Proj))
    (us : List String) (u w : String) (hfg : ∀ x, x ≠ u → f x = g x) (hw : w ≠ u) :
    (processBatch f us).lookup w = (processBatch g us).lookup w := by
  induction us with
  | nil => rfl
  | cons x us ih =>
    by_cases hx : w = x
    · subst hx
      simp [processBatch, List.lookup, hfg w hw]
    · have hbeq : (w == x) = false := beq_false_of_ne hx
      simpa [processBatch, List.lookup, hbeq] using ih

/-- C3: in the review batch, each user's entry is computed only from that
user's own lookup result; a lookup failure makes that user's aggregate 0,
and changing one user's lookup result (for example to a failure) leaves
every other user's entry unchanged. -/
theorem review_batch_isolated_failure (f g : String → Except String (List Proj))
    (us : List String) (u : String) (e : String) :
    (u ∈ us → (processBatch f us).lookup u = some (aggOrZero (f u))) ∧
    (f u = Except.error e → aggOrZero (f u) = 0) ∧
    ((∀ x, x ≠ u → f x = g x) → ∀ w, w ≠ u →
      (processBatch f us).lookup w = (processBatch g us).lookup w) := by
  refine ⟨fun hu => lookup_processBatch f us u hu, ?_, ?_⟩
  · intro hf
    rw [hf]
    rfl
  · intro hfg w hw
    exact lookup_processBatch_congr f g us u w hfg hw

/-- Witness for C3 at concrete inputs: in a two-user batch where the first
user's lookup throws, the first user's entry is 0 and the second user's
entry is unaffected by the failure. -/
theorem review_batch_isolated_failure_witness :
    (processBatch (fun x => if x = "alice" then Except.error "boom" else Except.ok [])
        ["alice", "bob"]).lookup "alice" =
      some (aggOrZero (if "alice" = "alice" then Except.error "boom" else Except.ok [])) ∧
    aggOrZero (if "alice" = "alice" then Except.error "boom" else Except.ok []) = 0 ∧
    (processBatch (fun x => if x = "alice" then Except.error "boom" else Except.ok [])
        ["alice", "bob"]).lookup "bob" =
      (processBatch (fun _ => Except.ok []) ["alice", "bob"]).lookup "bob" := by
  refine ⟨?_, ?_, ?_⟩
  · exact (review_batch_isolated_failure
      (fun x => if x = "alice" then Except.error "boom" else Except.ok [])
      (fun _ => Except.ok []) ["alice", "bob"] "alice" "boom").1 (by simp)
  · exact (review_batch_isolated_failure
      (fun x => if x = "alice" then Except.error "boom" else Except.ok [])
      (fun _ => Except.ok []) ["alice", "bob"] "alice" "boom").2.1 (by simp)
  · exact (review_batch_isolated_failure
      (fun x => if x = "alice" then Except.error "boom" else Except.ok [])
      (fun _ => Except.ok []) ["alice", "bob"] "alice" "boom").2.2
      (by intro x hx; simp [hx]) "bob" (by simp)

/-! ## Shared evaluation lemmas for the price formulas -/

theorem roundMulPhi_ten : roundMulPhi 10 = 16 := by decide

theorem roundMulPhi_twenty : roundMulPhi 20 = 32 := by decide

theorem roundMulPhi_negten : roundMulPhi (-10) = -16 := by decide

theorem configAutoPrice_rate_fires (cfg : ShopConfig) (r u : ℚ) (price : ℤ)
    (hdph : cfg.dollars_per_hour = some r) (hr : r ≠ 0) :
    configAutoPrice cfg (some u) price = roundMulPhi (u / r * 10) := by
  simp [configAutoPrice, truthyNum, hdph, hr]

theorem configAutoPrice_progress_fires (cfg : ShopConfig) (h : ℚ) (usd : Option ℚ)
    (price : ℤ) (hh : cfg.hours_equal_to_one_percent_progress = some h) (hne : h ≠ 0)
    (hnot : ¬ (truthyNum cfg.dollars_per_hour ∧ usd.isSome)) :
    configAutoPrice cfg usd price = roundMulPhi (h * 10) := by
  rw [configAutoPrice, if_neg (by simpa using hnot)]
  simp [truthyNum, hh, hne]

theorem configAutoPrice_fallback (cfg : ShopConfig) (usd : Option ℚ) (price : ℤ)
    (h1 : cfg.dollars_per_hour = none) (h2 : cfg.hours_equal_to_one_percent_progress = none) :
    configAutoPrice cfg usd price = price := by
  simp [configAutoPrice, truthyNum, h1, h2]

/-! ## C4: the fixed-cost price formula -/

/-- C4 counterexample: on a Fixed item whose config supplies
`dollars_per_hour = 5`, with `usdCost = 10` and global rate 10, the code
prices with the global rate (16 shells), not with the claimed config
override (`round((10/5) * φ * 10) = 32` shells). -/
theorem fixed_price_config_override_cex :
    handleSubmitPrice CostType.fixed ⟨some 5, none⟩ (some 10) 10 0 = 16 ∧
    roundMulPhi (10 / 5 * 10) = 32 ∧ (16 : ℤ) ≠ 32 := by
  refine ⟨?_, ?_, by decide⟩
  · have h1 : handleSubmitPrice CostType.fixed ⟨some 5, none⟩ (some 10) 10 0 =
        calculateShellPrice 10 10 := by
      simp [handleSubmitPrice]
    rw [h1, show calculateShellPrice 10 10 = roundMulPhi ((10 : ℚ) / 10 * 10) from rfl,
      show ((10 : ℚ) / 10 * 10) = 10 by norm_num]
    exact roundMulPhi_ten
  · rw [show ((10 : ℚ) / 5 * 10) = 20 by norm_num]
    exact roundMulPhi_twenty

/-- C4 (amended): for every Fixed-cost item with positive `usdCost` and
positive global rate, the computed base price is
`round((usdCost / globalRate) * φ * 10)` where the rate is always the
*global* one — the item's config `dollars_per_hour` is not consulted for
fixed items (that override exists only in the config-cost branch); the
computation is a pure function of `(usdCost, rate)`, and
`round((10/10) * φ * 10) = 16`. -/
theorem fixed_price_global_rate (cfg : ShopConfig) (u rate : ℚ) (fp : ℤ)
    (hu : 0 < u) (hr : 0 < rate) :
    handleSubmitPrice CostType.fixed cfg (some u) rate fp = calculateShellPrice u rate ∧
    calculateShellPrice u rate = round (((u / rate * 10 : ℚ) : ℝ) * goldenRatio) ∧
    calculateShellPrice 10 10 = 16 := by
  refine ⟨?_, roundMulPhi_eq _, ?_⟩
  · simp [handleSubmitPrice, hu, hr]
  · rw [show calculateShellPrice 10 10 = roundMulPhi ((10 : ℚ) / 10 * 10) from rfl,
      show ((10 : ℚ) / 10 * 10) = 10 by norm_num]
    exact roundMulPhi_ten

/-- Witness for C4 (amended) at concrete inputs: even with a config
supplying `dollars_per_hour = 5`, the fixed price uses the global rate. -/
theorem fixed_price_global_rate_witness :
    handleSubmitPrice CostType.fixed ⟨some 5, none⟩ (some 10) 10 0 =
      calculateShellPrice 10 10 ∧
    calculateShellPrice 10 10 = 16 :=
  ⟨(fixed_price_global_rate ⟨some 5, none⟩ 10 10 0 (by norm_num) (by norm_num)).1,
   (fixed_price_global_rate ⟨some 5, none⟩ 10 10 0 (by norm_num) (by norm_num)).2.2⟩

/-! ## C5: no rejection of negative cost bases -/

/-- C5 counterexample: a config item with `dollars_per_hour = 10` and
`usdCost = -10` yields the negative price `-16` with no error of any kind —
the output is not a non-negative integer and nothing is rejected. -/
theorem price_negative_not_rejected_cex :
    configAutoPrice ⟨some 10, none⟩ (some (-10)) 0 = -16 ∧ ((-16 : ℤ) < 0) := by
  refine ⟨?_, by decide⟩
  rw [configAutoPrice_rate_fires ⟨some 10, none⟩ 10 (-10) 0 rfl (by norm_num),
    show ((-10 : ℚ) / 10 * 10) = -10 by norm_num]
  exact roundMulPhi_negten

/-- C5 (amended): the price computation performs no cost-basis validation —
there is no `InvalidCostBasis` error anywhere.  For fixed items a
non-positive (or unparseable) `usdCost` or rate silently skips
auto-calculation, keeping the manually entered form price; for config items
a negative `usdCost` silently produces a negative price (`-16` for
`usdCost = -10` at rate 10). -/
theorem price_no_invalid_cost_basis (cfg : ShopConfig) (u rate : ℚ) (fp : ℤ) :
    (u ≤ 0 → handleSubmitPrice CostType.fixed cfg (some u) rate fp = fp) ∧
    (rate ≤ 0 → handleSubmitPrice CostType.fixed cfg (some u) rate fp = fp) ∧
    handleSubmitPrice CostType.fixed cfg none rate fp = fp ∧
    configAutoPrice ⟨some 10, none⟩ (some (-10)) 0 = -16 := by
  refine ⟨?_, ?_, rfl, ?_⟩
  · intro hu
    have h1 : ¬ 0 < u := not_lt.mpr hu
    simp [handleSubmitPrice, h1]
  · intro hr
    have h1 : ¬ 0 < rate := not_lt.mpr hr
    simp [handleSubmitPrice, h1]
  · rw [configAutoPrice_rate_fires ⟨some 10, none⟩ 10 (-10) 0 rfl (by norm_num),
      show ((-10 : ℚ) / 10 * 10) = -10 by norm_num]
    exact roundMulPhi_negten

/-- Witness for C5 (amended) at concrete inputs. -/
theorem price_no_invalid_cost_basis_witness :
    handleSubmitPrice CostType.fixed ⟨none, none⟩ (some (-10)) 10 7 = 7 ∧
    configAutoPrice ⟨some 10, none⟩ (some (-10)) 0 = -16 :=
  ⟨(price_no_invalid_cost_basis ⟨none, none⟩ (-10) 10 7).1 (by norm_num),
   (price_no_invalid_cost_basis ⟨none, none⟩ (-10) 10 7).2.2.2⟩

/-! ## C6: the progress-linked config price -/

/-- C6 counterexample: a config item supplying both
`hours_equal_to_one_percent_progress = 1` and `dollars_per_hour = 10`, with
`usdCost = 20`, is priced by the rate-linked branch at 32 shells, not at the
claimed `round(1 * φ * 10) = 16` — so with both keys present the price does
depend on `usdCost`. -/
theorem progress_price_rate_precedence_cex :
    configAutoPrice ⟨some 10, some 1⟩ (some 20) 0 = 32 ∧
    roundMulPhi (1 * 10) = 16 ∧ (32 : ℤ) ≠ 16 := by
  refine ⟨?_, ?_, by decide⟩
  · rw [configAutoPrice_rate_fires ⟨some 10, some 1⟩ 10 20 0 rfl (by norm_num),
      show ((20 : ℚ) / 10 * 10) = 20 by norm_num]
    exact roundMulPhi_twenty
  · rw [show ((1 : ℚ) * 10) = 10 by norm_num]
    exact roundMulPhi_ten

/-- C6 (amended): for a config-cost item whose config supplies a truthy
(nonzero) `hours_equal_to_one_percent_progress = h` and whose
`dollars_per_hour` branch does not fire, the computed price is
`round(h * φ * 10)` and is independent of `usdCost`; when the
`dollars_per_hour` key is not truthy the result never depends on `usdCost`
at all; and when neither recognized key is present the price is left
unchanged with no error. -/
theorem progress_price_formula (cfg : ShopConfig) (h : ℚ) (usd usd2 : Option ℚ)
    (price : ℤ) :
    (cfg.hours_equal_to_one_percent_progress = some h → h ≠ 0 →
      ¬ (truthyNum cfg.dollars_per_hour ∧ usd.isSome) →
      configAutoPrice cfg usd price = roundMulPhi (h * 10) ∧
      roundMulPhi (h * 10) = round (((h * 10 : ℚ) : ℝ) * goldenRatio)) ∧
    (truthyNum cfg.dollars_per_hour = false →
      configAutoPrice cfg usd price = configAutoPrice cfg usd2 price) ∧
    (cfg.dollars_per_hour = none → cfg.hours_equal_to_one_percent_progress = none →
      configAutoPrice cfg usd price = price) := by
  refine ⟨?_, ?_, fun h1 h2 => configAutoPrice_fallback cfg usd price h1 h2⟩
  · intro hh hne hnot
    exact ⟨configAutoPrice_progress_fires cfg h usd price hh hne hnot, roundMulPhi_eq _⟩
  · intro hfalse
    simp [configAutoPrice, hfalse]

/-- Witness for C6 (amended) at concrete inputs: `h = 1`, no
`dollars_per_hour` key, arbitrary `usdCost = 99`. -/
theorem progress_price_formula_witness :
    configAutoPrice ⟨none, some 1⟩ (some 99) 0 = roundMulPhi (1 * 10) ∧
    configAutoPrice ⟨none, none⟩ (some 99) 5 = 5 := by
  constructor
  · exact ((progress_price_formula ⟨none, some 1⟩ 1 (some 99) none 0).1 rfl
      (by norm_num) (by simp [truthyNum])).1
  · exact (progress_price_formula ⟨none, none⟩ 1 (some 99) none 5).2.2 rfl rfl

/-! ## C10: precedence of the rate-linked branch -/

/-- C10: in the config auto-calculation, when the config supplies a truthy
`dollars_per_hour = r` and `usdCost` parses, the rate-linked formula
`round((usdCost / r) * φ * 10)` is applied regardless of any
`hours_equal_to_one_percent_progress` key; the progress-linked branch runs
exactly when the `dollars_per_hour` branch does not fire and the progress
key is truthy. -/
theorem config_rate_precedence (cfg : ShopConfig) (r u : ℚ) (usd : Option ℚ)
    (price : ℤ) :
    (cfg.dollars_per_hour = some r → r ≠ 0 →
      configAutoPrice cfg (some u) price = roundMulPhi (u / r * 10)) ∧
    (¬ (truthyNum cfg.dollars_per_hour ∧ usd.isSome) →
      truthyNum cfg.hours_equal_to_one_percent_progress →
      configAutoPrice cfg usd price =
        roundMulPhi (cfg.hours_equal_to_one_percent_progress.getD 0 * 10)) := by
  constructor
  · intro hdph hr
    exact configAutoPrice_rate_fires cfg r u price hdph hr
  · intro hnot htr
    rw [configAutoPrice, if_neg (by simpa using hnot), if_pos htr]

/-- Witness for C10 at concrete inputs: both keys present, `usdCost = 20`,
rate branch wins. -/
theorem config_rate_precedence_witness :
    configAutoPrice ⟨some 10, some 1⟩ (some 20) 0 = roundMulPhi (20 / 10 * 10) :=
  (config_rate_precedence ⟨some 10, some 1⟩ 10 20 none 0).1 rfl (by norm_num)

/-! ## C8: deterministic, bounded randomized pricing -/

theorem sampleFrac_nonneg (u i b : ℕ) : 0 ≤ sampleFrac u i b := by
  unfold sampleFrac
  positivity

theorem sampleFrac_le_one (u i b : ℕ) : sampleFrac u i b ≤ 1 := by
  unfold sampleFrac
  rw [div_le_one (by norm_num)]
  have h : (u * 2654435761 + i * 40503 + b * 69069) % 1000 < 1000 :=
    Nat.mod_lt _ (by norm_num)
  calc (((u * 2654435761 + i * 40503 + b * 69069) % 1000 : ℕ) : ℚ) ≤ 999 := by
        exact_mod_cast Nat.lt_succ_iff.mp h
    _ ≤ 1000 := by norm_num

theorem sampleMultiplier_mem (minP maxP : ℚ) (hle : minP ≤ maxP) (u i b : ℕ) :
    minP / 100 ≤ sampleMultiplier minP maxP u i b ∧
      sampleMultiplier minP maxP u i b ≤ maxP / 100 := by
  have h0 := sampleFrac_nonneg u i b
  have h1 := sampleFrac_le_one u i b
  unfold sampleMultiplier
  constructor
  · nlinarith
  · nlinarith

/-- C8: for a randomized-pricing item, the sampled price is a deterministic
function of `(userId, itemId, timeBucket)` with the bucket advancing once
per clock hour — two calls in the same hour bucket agree — the price always
lies in `[basePrice * minPercent/100, basePrice * maxPercent/100]`, and an
item with randomized pricing disabled displays exactly its base price. -/
theorem sample_price_deterministic_bounded (base minP maxP : ℚ) (u i n1 n2 : ℕ) :
    (timeBucket n1 = timeBucket n2 →
      samplePrice base true minP maxP u i n1 = samplePrice base true minP maxP u i n2) ∧
    (0 ≤ base → minP ≤ maxP →
      base * (minP / 100) ≤ samplePrice base true minP maxP u i n1 ∧
      samplePrice base true minP maxP u i n1 ≤ base * (maxP / 100)) ∧
    samplePrice base false minP maxP u i n1 = base := by
  refine ⟨?_, ?_, rfl⟩
  · intro hb
    simp [samplePrice, hb]
  · intro hbase hle
    obtain ⟨hl, hr⟩ := sampleMultiplier_mem minP maxP hle u i (timeBucket n1)
    constructor
    · simpa [samplePrice] using mul_le_mul_of_nonneg_left hl hbase
    · simpa [samplePrice] using mul_le_mul_of_nonneg_left hr hbase

/-- Witness for C8 at concrete inputs: two instants inside the same clock
hour, and a static item. -/
theorem sample_price_deterministic_bounded_witness :
    samplePrice 10 true 90 110 1 2 1000 = samplePrice 10 true 90 110 1 2 3599999 ∧
    (10 : ℚ) * (90 / 100) ≤ samplePrice 10 true 90 110 1 2 1000 ∧
    samplePrice 10 false 90 110 1 2 1000 = 10 :=
  ⟨(sample_price_deterministic_bounded 10 90 110 1 2 1000 3599999).1 (by decide),
   ((sample_price_deterministic_bounded 10 90 110 1 2 1000 3599999).2.1
      (by norm_num) (by norm_num)).1,
   (sample_price_deterministic_bounded 10 90 110 1 2 1000 3599999).2.2⟩

/-! ## C9: `hoursOverride` is writable only by privileged actors -/

theorem mem_filterUpdateFields_ne (role : Role) (fields : List (String × Option ℚ))
    (kv : String × Option ℚ) (hkv : kv ∈ filterUpdateFields role fields) :
    kv.1 ≠ "hoursOverride" := by
  have hstrip : kv ∈ stripHoursOverride fields := by
    cases role <;> exact (List.mem_filter.mp hkv).1
  have h2 := (List.mem_filter.mp hstrip).2
  simpa using h2

/-- C9: the top-level `hoursOverride` field is stripped from the update
payload for every caller, admins included, so it is never persisted through
the `PUT` path; and the per-link `hackatimeLinkOverrides` pass runs exactly
for Admin/Reviewer callers — for a plain caller the stored links are
unchanged by the request. -/
theorem hours_override_admin_only (role : Role) (fields overrides : List (String × Option ℚ))
    (v : Option ℚ) (links : List StoredLink) :
    ("hoursOverride", v) ∉ filterUpdateFields role fields ∧
    (role = Role.plain → putLinkUpdates role overrides links = links) ∧
    ((role = Role.admin ∨ role = Role.reviewer) → overrides ≠ [] →
      putLinkUpdates role overrides links = links.map (applyLinkOverride overrides)) := by
  refine ⟨?_, ?_, ?_⟩
  · intro hmem
    exact mem_filterUpdateFields_ne role fields _ hmem rfl
  · intro hrole
    subst hrole
    simp [putLinkUpdates]
  · intro h1 h2
    rw [putLinkUpdates, if_pos ⟨h1, h2⟩]

/-- Witness for C9 at concrete inputs: a plain user submitting both a
top-level `hoursOverride` and a per-link override changes nothing, while an
admin's per-link override is applied. -/
theorem hours_override_admin_only_witness :
    ("hoursOverride", (some 5 : Option ℚ)) ∉
      filterUpdateFields Role.plain [("hoursOverride", some 5), ("name", some 1)] ∧
    putLinkUpdates Role.plain [("l1", some 5)] [⟨"l1", 2, none⟩] = [⟨"l1", 2, none⟩] ∧
    putLinkUpdates Role.admin [("l1", some 5)] [⟨"l1", 2, none⟩] =
      [⟨"l1", 2, none⟩].map (applyLinkOverride [("l1", some 5)]) :=
  ⟨(hours_override_admin_only Role.plain [("hoursOverride", some 5), ("name", some 1)]
      [("l1", some 5)] (some 5) [⟨"l1", 2, none⟩]).1,
   (hours_override_admin_only Role.plain [("hoursOverride", some 5), ("name", some 1)]
      [("l1", some 5)] (some 5) [⟨"l1", 2, none⟩]).2.1 rfl,
   (hours_override_admin_only Role.admin [("hoursOverride", some 5), ("name", some 1)]
      [("l1", some 5)] (some 5) [⟨"l1", 2, none⟩]).2.2 (Or.inl rfl) (by simp)⟩
